import Mathlib

/-!
Verification of the document-processing pipeline and frontend transport of
the ai-lecturer repository, against its natural-language specification.

The WebSocket client (`WebSocketManager` in the frontend sources) is embedded
directly from the JavaScript source.  The backend document pipeline (Parser,
ParserFactory, Cache, BatchOrchestrator, EnhancedProcessor) is documented by
the specification and the integration guide but its source modules are not in
the repository snapshot; those components are modelled from the spec, as the
doc comments on the corresponding definitions state.
-/

/-! ## WebSocketManager (embedded from the frontend WebSocket module) -/

/-- State of a `WebSocketManager` instance: `socketPresent` models
`this.socket !== null`, the remaining fields are the constructor's fields
`isConnected`, `reconnectAttempts`, `maxReconnectAttempts`, `reconnectDelay`. -/
structure WSState where
  socketPresent : Bool
  isConnected : Bool
  reconnectAttempts : Nat
  maxReconnectAttempts : Nat
  reconnectDelay : Nat
deriving DecidableEq

/-- The constructor of `WebSocketManager`: no socket, not connected,
zero reconnect attempts, `maxReconnectAttempts = 5`, `reconnectDelay = 1000`. -/
def wsInit : WSState :=
  { socketPresent := false
    isConnected := false
    reconnectAttempts := 0
    maxReconnectAttempts := 5
    reconnectDelay := 1000 }

/-- Socket lifecycle events delivered to the handlers installed by
`setupEventListeners`: `onOpen` for `socket.onopen`, `onClose code` for
`socket.onclose` with the given close code. -/
inductive WSEvent where
  | onOpen : WSEvent
  | onClose (code : Nat) : WSEvent
deriving DecidableEq

/-- A reconnect scheduled by `attemptReconnect`: the value of
`reconnectAttempts` after its increment, and the `setTimeout` delay. -/
structure WSRec where
  attempt : Nat
  delay : Nat
deriving DecidableEq

/-- One step of the event handlers in `setupEventListeners`.
`onopen` sets `isConnected = true` and resets `reconnectAttempts` to 0.
`onclose` clears `isConnected`; then, exactly when the close code is not 1000
and `reconnectAttempts < maxReconnectAttempts`, `attemptReconnect` runs: it
increments `reconnectAttempts` and schedules a reconnect after
`reconnectDelay * 2 ^ (reconnectAttempts - 1)` milliseconds (with the
incremented counter value). -/
def wsStep (s : WSState) : WSEvent → WSState × Option WSRec
  | .onOpen =>
      ({ s with isConnected := true, reconnectAttempts := 0 }, none)
  | .onClose code =>
      if code ≠ 1000 ∧ s.reconnectAttempts < s.maxReconnectAttempts then
        ({ s with isConnected := false,
                  reconnectAttempts := s.reconnectAttempts + 1 },
         some { attempt := s.reconnectAttempts + 1,
                delay := s.reconnectDelay * 2 ^ (s.reconnectAttempts + 1 - 1) })
      else
        ({ s with isConnected := false }, none)

/-- Run a trace of socket events, collecting every scheduled reconnect in
order. -/
def wsRun : WSState → List WSEvent → WSState × List WSRec
  | s, [] => (s, [])
  | s, ev :: tr =>
      let p := wsStep s ev
      let q := wsRun p.1 tr
      (q.1, p.2.toList ++ q.2)

/-- `sendMessage(message)`: when `isConnected && socket`, the serialized
message is transmitted over the socket and the call returns `true`; otherwise
nothing is transmitted and the call returns `false`.  The first component is
the returned boolean, the second the transmitted frame, `serialize` standing
for `JSON.stringify`. -/
def sendMessage {μ : Type} (serialize : μ → String) (s : WSState) (m : μ) :
    Bool × Option String :=
  if s.isConnected && s.socketPresent then
    (true, some (serialize m))
  else
    (false, none)

/-- `disconnect()`: if a socket exists it is closed with code 1000, the
socket reference is nulled and `isConnected` is cleared; otherwise nothing
happens. -/
def wsDisconnect (s : WSState) : WSState :=
  if s.socketPresent then
    { s with socketPresent := false, isConnected := false }
  else
    s

/-- Invariant maintained by the event handlers on every reachable state of
the manager: the configuration fields keep their constructor values and the
attempt counter never exceeds the bound. -/
def wsInv (s : WSState) : Prop :=
  s.maxReconnectAttempts = 5 ∧ s.reconnectDelay = 1000 ∧ s.reconnectAttempts ≤ 5

/-- An event trace exhibiting more than `maxReconnectAttempts` scheduled
reconnects in one run: five abnormal closes, a successful reconnection
(which resets `reconnectAttempts` to 0), then another abnormal close. -/
def wsCounterTrace : List WSEvent :=
  [.onClose 1006, .onClose 1006, .onClose 1006, .onClose 1006, .onClose 1006,
   .onOpen, .onClose 1006]

/-! ## Document pipeline data model

Modelled from the spec: the backend pipeline modules (Parser variants,
ParserFactory, Cache, BatchOrchestrator, EnhancedProcessor) are not in the
repository snapshot; only their documented contracts (spec sections 3, 4 and 7
and the integration guide) are.  The definitions below follow those contracts.
-/

/-- Modelled from the spec: the `processing_mode` option, `fast` or
`accurate`. -/
inductive ProcessingMode where
  | fast
  | accurate
deriving DecidableEq

/-- Modelled from the spec: `ProcessingOptions`, the recognized configuration
options of the pipeline. -/
structure ProcessingOptions where
  enable_ocr : Bool
  enable_table_extraction : Bool
  processing_mode : ProcessingMode
  timeout_seconds : Nat
  max_file_size_bytes : Nat
  extract_topics : Bool
  generate_summary : Bool
deriving DecidableEq

/-- Modelled from the spec: one element of `ParsedDocument.structure` — a
section/heading with text, 1-based level and optional page. -/
structure SectionData where
  text : String
  level : Nat
  page : Option Nat
deriving DecidableEq

/-- Modelled from the spec: one element of `ParsedDocument.tables`. -/
structure TableData where
  table_id : Nat
  rows : Nat
  columns : Nat
  page : Nat
  content : String
  caption : Option String
deriving DecidableEq

/-- Modelled from the spec: one element of `ParsedDocument.images`. -/
structure ImageData where
  image_id : Nat
  page : Nat
  width : Nat
  height : Nat
  format : String
  caption : Option String
deriving DecidableEq

/-- Modelled from the spec: `ParsedDocument`, the canonical output of any
parser.  `content` has type `String` and `structure'`/`tables`/`images` have
list types, so none of them can be null or absent; the always-present
metadata keys `parser_used` and `file_size` are carried as fields, the
best-effort metadata keys are irrelevant to the claims and omitted. -/
structure ParsedDocument where
  content : String
  parser_used : String
  file_size : Nat
  structure' : List SectionData
  tables : List TableData
  images : List ImageData
deriving DecidableEq

/-- Modelled from the spec: the error taxonomy of section 7. -/
inductive ParseErrorKind where
  | Unsupported
  | TooLarge
  | Corrupt
  | Timeout
  | BackendUnavailable
  | AllParsersFailed
deriving DecidableEq

/-- Modelled from the spec: `ParseError{kind, message, retryable}`. -/
structure ParseError where
  kind : ParseErrorKind
  message : String
  retryable : Bool
deriving DecidableEq

/-- Modelled from the spec: one parse request — raw content, filename, the
MIME type derived upstream from filename/content sniffing, the byte size of
the raw content, and the processing options. -/
structure ParseInput where
  content : String
  filename : String
  mime : String
  size : Nat
  options : ProcessingOptions
deriving DecidableEq

/-- Modelled from the spec: the closed set of parser variants — the Advanced
(Docling) parser and the Basic (legacy) parser. -/
inductive ParserVariant where
  | advanced
  | basic
deriving DecidableEq

/-- Variant identifiers as used in `metadata.parser_used` (the frontend
checks `parser_used === 'docling'` for the advanced variant). -/
def parserId : ParserVariant → String
  | .advanced => "docling"
  | .basic => "legacy"

/-- MIME types supported by the advanced (Docling) parser, from the
integration guide. -/
def advancedSupports (m : String) : Bool :=
  m ∈ ["application/pdf",
       "application/vnd.openxmlformats-officedocument.wordprocessingml.document",
       "application/msword",
       "application/vnd.openxmlformats-officedocument.presentationml.presentation",
       "application/vnd.openxmlformats-officedocument.spreadsheetml.sheet",
       "text/html",
       "text/markdown"]

/-- MIME types supported by the basic (legacy) parser, from the integration
guide. -/
def basicSupports (m : String) : Bool :=
  m ∈ ["application/pdf",
       "application/vnd.openxmlformats-officedocument.wordprocessingml.document",
       "text/plain",
       "text/markdown"]

/-- `supports(mimeType)` of a parser variant. -/
def variantSupports : ParserVariant → String → Bool
  | .advanced, m => advancedSupports m
  | .basic, m => basicSupports m

/-- Modelled from the spec: the factory environment — whether the advanced
backend's optional dependency is installed (the capability probe); the basic
variant is always available. -/
structure FactoryEnv where
  advancedAvailable : Bool
deriving DecidableEq

/-- Availability probe of a variant, a cheap check rather than a failed
parse attempt. -/
def variantAvailable (env : FactoryEnv) : ParserVariant → Bool
  | .advanced => env.advancedAvailable
  | .basic => true

/-- Modelled from the spec: the ordered candidate list — variants with richer
capabilities first when OCR/table extraction is required or
`processing_mode == accurate`, the fastest capable variant first otherwise. -/
def candidateOrder (o : ProcessingOptions) : List ParserVariant :=
  if o.enable_ocr || o.enable_table_extraction ||
      o.processing_mode == ProcessingMode.accurate then
    [.advanced, .basic]
  else
    [.basic, .advanced]

/-- Ranked candidates capable of handling the input's MIME type. -/
def candidatesFor (o : ProcessingOptions) (mime : String) : List ParserVariant :=
  (candidateOrder o).filter (fun v => variantSupports v mime)

/-- Error kinds that imply every variant will fail identically and therefore
short-circuit the fallback chain. -/
def shortCircuits : ParseErrorKind → Bool
  | .Corrupt => true
  | .TooLarge => true
  | _ => false

/-- Tag a result with the identifier of the variant that produced it. -/
def setParserUsed (d : ParsedDocument) (id : String) : ParsedDocument :=
  { d with parser_used := id }

/-- Modelled from the spec: the factory's attempt loop over the ranked
candidate list — skip unavailable variants, return the first success tagged
with `parser_used`, short-circuit on fatal error kinds, otherwise record the
error and continue; when every candidate is exhausted, fail with
`AllParsersFailed` aggregating the per-candidate reasons. -/
def factoryAttempt (env : FactoryEnv)
    (parseFn : ParserVariant → ParseInput → Except ParseError ParsedDocument)
    (input : ParseInput) :
    List ParserVariant → List ParseError → Except ParseError ParsedDocument
  | [], errs =>
      .error { kind := .AllParsersFailed,
               message := "all parsers failed: " ++
                 String.intercalate "; " (errs.reverse.map (fun e => e.message)),
               retryable := false }
  | v :: rest, errs =>
      if variantAvailable env v then
        match parseFn v input with
        | .ok d => .ok (setParserUsed d (parserId v))
        | .error e =>
            if shortCircuits e.kind then .error e
            else factoryAttempt env parseFn input rest (e :: errs)
      else
        factoryAttempt env parseFn input rest errs

/-- Modelled from the spec: `ParserFactory.parse` — surface `Unsupported`
immediately when no variant handles the MIME type, otherwise run the
fallback chain over the ranked candidates. -/
def factoryParse (env : FactoryEnv)
    (parseFn : ParserVariant → ParseInput → Except ParseError ParsedDocument)
    (input : ParseInput) : Except ParseError ParsedDocument :=
  match candidatesFor input.options input.mime with
  | [] => .error { kind := .Unsupported,
                   message := "unsupported MIME type: " ++ input.mime,
                   retryable := false }
  | v :: rest => factoryAttempt env parseFn input (v :: rest) []

/-- Modelled from the spec: the outcome of a parser variant's extraction
backend — each component is `none` when that extraction step found nothing
(total extraction failure short of a hard error), `some` otherwise. -/
structure Extraction where
  text : Option String
  sections : Option (List SectionData)
  tables : Option (List TableData)
  images : Option (List ImageData)

/-- Assemble a `ParsedDocument` from an extraction outcome, applying the
spec's defaults: empty string when no text was extracted, empty sequences
for absent structure/tables/images. -/
def assembleDoc (id : String) (size : Nat) (ex : Extraction) : ParsedDocument :=
  { content := ex.text.getD ""
    parser_used := id
    file_size := size
    structure' := ex.sections.getD []
    tables := ex.tables.getD []
    images := ex.images.getD [] }

/-- Modelled from the spec: `parse` of a parser variant — enforce
`max_file_size_bytes` itself (fail fast, non-retryable `TooLarge`), reject
unsupported MIME types, otherwise assemble the document from the variant's
extraction backend; the basic variant never produces tables or images. -/
def variantParse (backend : ParserVariant → ParseInput → Extraction)
    (v : ParserVariant) (input : ParseInput) :
    Except ParseError ParsedDocument :=
  if input.options.max_file_size_bytes < input.size then
    .error { kind := .TooLarge, message := "file too large", retryable := false }
  else if variantSupports v input.mime then
    match v with
    | .basic =>
        .ok (assembleDoc (parserId .basic) input.size
          { backend .basic input with tables := some [], images := some [] })
    | .advanced =>
        .ok (assembleDoc (parserId .advanced) input.size (backend .advanced input))
  else
    .error { kind := .Unsupported, message := "unsupported MIME type",
             retryable := false }

/-- Modelled from the spec: `EnhancedResult` — the parsed document plus the
post-processing fields `key_topics` and `summary`. -/
structure EnhancedResult where
  document : ParsedDocument
  key_topics : List String
  summary : Option String
deriving DecidableEq

/-- Which pipeline stages a `processFile` call reached: whether the cache
was consulted and whether a parser was invoked. -/
structure ProcTrace where
  cacheConsulted : Bool
  parserInvoked : Bool
deriving DecidableEq

/-- Modelled from the spec: assembling the final response — topic extraction
and summarization are delegated to an external collaborator; a failure of
either call yields empty/null fields, never a failed request. -/
def assembleResult (topicsFn : String → Except String (List String))
    (summaryFn : String → Except String String)
    (o : ProcessingOptions) (d : ParsedDocument) : EnhancedResult :=
  { document := d
    key_topics :=
      if o.extract_topics then ((topicsFn d.content).toOption.getD []) else []
    summary :=
      if o.generate_summary then (summaryFn d.content).toOption else none }

/-- Modelled from the spec: `EnhancedProcessor.processFile` — validate
`max_file_size_bytes` before touching the cache or factory (fail fast,
non-retryable `TooLarge`); on a cache hit return the cached document, on a
miss run the factory; then apply post-processing.  The second component
records which stages were reached. -/
def processFile (env : FactoryEnv)
    (parseFn : ParserVariant → ParseInput → Except ParseError ParsedDocument)
    (topicsFn : String → Except String (List String))
    (summaryFn : String → Except String String)
    (cache : String → Option ParsedDocument) (fp : String)
    (input : ParseInput) :
    Except ParseError EnhancedResult × ProcTrace :=
  if input.options.max_file_size_bytes < input.size then
    (.error { kind := .TooLarge, message := "file exceeds max_file_size_bytes",
              retryable := false },
     { cacheConsulted := false, parserInvoked := false })
  else
    match cache fp with
    | some d =>
        (.ok (assembleResult topicsFn summaryFn input.options d),
         { cacheConsulted := true, parserInvoked := false })
    | none =>
        match factoryParse env parseFn input with
        | .ok d =>
            (.ok (assembleResult topicsFn summaryFn input.options d),
             { cacheConsulted := true, parserInvoked := true })
        | .error e =>
            (.error e, { cacheConsulted := true, parserInvoked := true })

/-- Modelled from the spec: `BatchResult` — a `ParsedDocument` or a
structured failure, paired 1:1 with the submitted index. -/
inductive BatchResult where
  | success (d : ParsedDocument)
  | failure (e : ParseError)
deriving DecidableEq

/-- The outcome of one batch job, determined solely by that job. -/
def batchOutcome
    (processOne : ParseInput → Except ParseError ParsedDocument)
    (j : ParseInput) : BatchResult :=
  match processOne j with
  | .ok d => .success d
  | .error e => .failure e

/-- The result table of a batch run: each completion in `completionOrder`
writes the outcome of the job at that submitted index into the index's
slot. -/
def batchTableFrom
    (processOne : ParseInput → Except ParseError ParsedDocument)
    (jobs : List ParseInput) :
    List Nat → (Nat → Option BatchResult) → Nat → Option BatchResult
  | [], t => t
  | i :: rest, t =>
      batchTableFrom processOne jobs rest
        (match jobs[i]? with
         | some j => fun k =>
             if k = i then some (batchOutcome processOne j) else t k
         | none => t)

/-- Modelled from the spec: `BatchOrchestrator.processBatch` — jobs complete
in an arbitrary order (`completionOrder`, the scheduling of the bounded
worker pool of size `maxConcurrent`); each completion writes its result into
the slot of the job's submitted index, and the output lists the slots in
submission order. -/
def processBatch
    (processOne : ParseInput → Except ParseError ParsedDocument)
    (jobs : List ParseInput) (maxConcurrent : Nat)
    (completionOrder : List Nat) : List (Option BatchResult) :=
  (List.range jobs.length).map
    (batchTableFrom processOne jobs completionOrder (fun _ => none))

/-- Modelled from the spec: `CacheEntry` — fingerprint, stored value,
creation time and last access time. -/
structure CacheEntry (κ α : Type) where
  fingerprint : κ
  value : α
  created_at : Nat
  last_accessed_at : Nat
deriving DecidableEq

/-- Modelled from the spec: the bounded, time-and-size-evicted cache. -/
structure LruCache (κ α : Type) where
  entries : List (CacheEntry κ α)
  maxEntries : Nat
  ttl : Nat
deriving DecidableEq

/-- The least-recently-accessed entry of a list (the eviction victim);
`none` on an empty list. -/
def lruVictim {κ α : Type} : List (CacheEntry κ α) → Option (CacheEntry κ α)
  | [] => none
  | e :: es =>
      match lruVictim es with
      | none => some e
      | some e' =>
          if e.last_accessed_at ≤ e'.last_accessed_at then some e else some e'

/-- A cache entry created at `now`: `created_at = last_accessed_at = now`. -/
def cacheNewEntry {κ α : Type} (now : Nat) (fp : κ) (v : α) : CacheEntry κ α :=
  { fingerprint := fp
    value := v
    created_at := now
    last_accessed_at := now }

/-- Modelled from the spec: storing a freshly computed result — when the
entry count has reached the configured bound, the least-recently-accessed
entry is evicted first; the new entry starts with
`created_at = last_accessed_at = now`. -/
def cacheInsert {κ α : Type} [DecidableEq κ] [DecidableEq α]
    (c : LruCache κ α) (now : Nat) (fp : κ) (v : α) : LruCache κ α :=
  if c.maxEntries ≤ c.entries.length then
    match lruVictim c.entries with
    | some e =>
        { c with entries := c.entries.erase e ++ [cacheNewEntry now fp v] }
    | none =>
        { c with entries := c.entries ++ [cacheNewEntry now fp v] }
  else
    { c with entries := c.entries ++ [cacheNewEntry now fp v] }

/-- Modelled from the spec: `lookup(fingerprint)` — a hit whose age since
creation exceeds `ttl` is eagerly invalidated (removed, miss returned); a
fresh hit updates `last_accessed_at` and returns the value; never blocks on
a miss. -/
def cacheLookup {κ α : Type} [DecidableEq κ]
    (c : LruCache κ α) (now : Nat) (fp : κ) : Option α × LruCache κ α :=
  match c.entries.find? (fun e => e.fingerprint == fp) with
  | none => (none, c)
  | some e =>
      if c.ttl < now - e.created_at then
        (none, { c with
          entries := c.entries.filter (fun x => x.fingerprint != fp) })
      else
        (some e.value, { c with
          entries := c.entries.map (fun x =>
            if x.fingerprint == fp then { x with last_accessed_at := now }
            else x) })

/-- Modelled from the spec: the coalescing cache front-end.  `store` maps a
fingerprint to a completed result, `inflight` maps a fingerprint under
computation to the callers waiting on it (in arrival order), `computeLog`
records every fingerprint whose `computeFn` was actually started, and
`delivered` records every result handed to a caller. -/
structure CoalesceState (κ α ε : Type) where
  store : κ → Option α
  inflight : κ → Option (List Nat)
  computeLog : List κ
  delivered : List (Nat × Except ε α)

/-- Events of the cooperative-async execution of `getOrCompute`: a caller's
request arrives, or the single in-flight computation of a fingerprint
completes with a result (success or failure). -/
inductive CoalesceEvent (κ α ε : Type) where
  | request (caller : Nat) (fp : κ)
  | complete (fp : κ) (r : Except ε α)

/-- Modelled from the spec: one cooperative step of `getOrCompute`.  A
request for a stored fingerprint is answered immediately; a request for an
in-flight fingerprint joins the waiters without starting a computation; a
request for an unknown fingerprint starts the one computation.  A completion
fans its result out to every waiter; only a success populates the store, a
failure releases all waiters with the same failure and leaves the store
unchanged. -/
def coalesceStep {κ α ε : Type} [DecidableEq κ] (s : CoalesceState κ α ε) :
    CoalesceEvent κ α ε → CoalesceState κ α ε
  | .request c fp =>
      match s.store fp with
      | some v => { s with delivered := s.delivered ++ [(c, .ok v)] }
      | none =>
          match s.inflight fp with
          | some ws =>
              { s with inflight := fun k =>
                  if k = fp then some (ws ++ [c]) else s.inflight k }
          | none =>
              { s with
                inflight := fun k =>
                  if k = fp then some [c] else s.inflight k,
                computeLog := s.computeLog ++ [fp] }
  | .complete fp r =>
      match s.inflight fp with
      | some ws =>
          { s with
            delivered := s.delivered ++ ws.map (fun c => (c, r)),
            inflight := fun k => if k = fp then none else s.inflight k,
            store :=
              match r with
              | .ok v => fun k => if k = fp then some v else s.store k
              | .error _ => s.store }
      | none => s

/-- Run a sequence of coalescing events. -/
def coalesceRun {κ α ε : Type} [DecidableEq κ] (s : CoalesceState κ α ε) :
    List (CoalesceEvent κ α ε) → CoalesceState κ α ε
  | [] => s
  | ev :: tr => coalesceRun (coalesceStep s ev) tr

/-- Witness for `factory_fallback_to_basic`: a plain-text input requiring
OCR, with the advanced backend unavailable and a basic parse that succeeds
with an empty document. -/
def wOpts : ProcessingOptions :=
  { enable_ocr := true
    enable_table_extraction := false
    processing_mode := ProcessingMode.accurate
    timeout_seconds := 30
    max_file_size_bytes := 100
    extract_topics := false
    generate_summary := false }

def wInput : ParseInput :=
  { content := "text"
    filename := "notes.txt"
    mime := "text/plain"
    size := 4
    options := wOpts }

def wDoc : ParsedDocument :=
  assembleDoc "legacy" 4
    { text := some "text"
      sections := none
      tables := none
      images := none }

/-- An extraction backend that finds nothing: every component `none`. -/
def wExtract : Extraction :=
  { text := none
    sections := none
    tables := none
    images := none }

/-- A backend assigning the empty extraction to every variant and input. -/
def wBackend : ParserVariant → ParseInput → Extraction :=
  fun _ _ => wExtract

/-- The document the basic variant assembles from the empty extraction. -/
def wDoc7 : ParsedDocument :=
  assembleDoc "legacy" 4 { wExtract with tables := some [], images := some [] }

/-- The fail-fast error `processFile` raises for an oversized input. -/
def tooLargeError : ParseError :=
  { kind := .TooLarge
    message := "file exceeds max_file_size_bytes"
    retryable := false }

/-- A factory environment with the advanced backend unavailable. -/
def wEnv : FactoryEnv := { advancedAvailable := false }

/-- A parse function on which every variant succeeds with `wDoc`. -/
def wParseFn : ParserVariant → ParseInput → Except ParseError ParsedDocument :=
  fun _ _ => .ok wDoc

/-- A topic-extraction collaborator that always fails. -/
def wTopicsFail : String → Except String (List String) :=
  fun _ => .error "topics backend down"

/-- A summarization collaborator that always fails. -/
def wSummaryFail : String → Except String String :=
  fun _ => .error "summary backend down"

/-- An empty cache. -/
def wCacheNone : String → Option ParsedDocument := fun _ => none

/-- The input of `wInput` resized to exactly `max_file_size_bytes = 100`. -/
def wBoundaryInput : ParseInput := { wInput with size := 100 }

/-- The input of `wInput` resized to one byte over the bound. -/
def wOverInput : ParseInput := { wInput with size := 101 }

/-- `wDoc` tagged with the basic variant's identifier by the factory. -/
def wTagged : ParsedDocument := setParserUsed wDoc (parserId .basic)

/-- The short-circuiting error of a corrupt document. -/
def corruptError : ParseError :=
  { kind := .Corrupt
    message := "corrupt document"
    retryable := false }

/-- A batch job differing from `wInput` only in its filename. -/
def wJob (name : String) : ParseInput := { wInput with filename := name }

/-- A 5-job batch whose job at index 2 is a corrupt document. -/
def wJobs : List ParseInput :=
  [wJob "a.txt", wJob "b.txt", wJob "corrupt.txt", wJob "d.txt", wJob "e.txt"]

/-- A per-job pipeline on which exactly the corrupt document fails. -/
def wProcessOne : ParseInput → Except ParseError ParsedDocument :=
  fun j => if j.filename = "corrupt.txt" then .error corruptError else .ok wDoc

/-- The old untouched cache entry (least recently accessed). -/
def wOldEntry : CacheEntry Nat Nat :=
  { fingerprint := 1
    value := 10
    created_at := 0
    last_accessed_at := 0 }

/-- A cache entry accessed just before the bound is exceeded. -/
def wFreshEntry : CacheEntry Nat Nat :=
  { fingerprint := 2
    value := 20
    created_at := 0
    last_accessed_at := 5 }

/-- A cache at its configured bound of 2 entries. -/
def wCache : LruCache Nat Nat :=
  { entries := [wOldEntry, wFreshEntry]
    maxEntries := 2
    ttl := 60 }

/-- An entry whose age exceeds the `ttl` of `wTtlCache` at time 100. -/
def wExpired : CacheEntry Nat Nat :=
  { fingerprint := 7
    value := 70
    created_at := 0
    last_accessed_at := 0 }

/-- A cache holding only the expired entry, with `ttl = 10`. -/
def wTtlCache : LruCache Nat Nat :=
  { entries := [wExpired]
    maxEntries := 2
    ttl := 10 }

/-- An empty coalescing cache over natural-number fingerprints, values and
error codes. -/
def wCoalesceInit : CoalesceState Nat Nat Nat :=
  { store := fun _ => none
    inflight := fun _ => none
    computeLog := []
    delivered := [] }

/-! ## Theorems -/

theorem wsStep_inv (s : WSState) (ev : WSEvent) (h : wsInv s) :
    wsInv (wsStep s ev).1 ∧
    ∀ r ∈ (wsStep s ev).2.toList,
      1 ≤ r.attempt ∧ r.attempt ≤ 5 ∧ r.delay = 1000 * 2 ^ (r.attempt - 1) := by
  obtain ⟨hm, hd, ha⟩ := h
  cases ev with
  | onOpen =>
      simp [wsStep, wsInv, hm, hd]
  | onClose code =>
      simp only [wsStep]
      split
      · refine ⟨⟨hm, hd, show s.reconnectAttempts + 1 ≤ 5 by omega⟩, ?_⟩
        intro r hr
        simp only [Option.toList_some, List.mem_singleton] at hr
        subst hr
        refine ⟨Nat.le_add_left 1 _, show s.reconnectAttempts + 1 ≤ 5 by omega, ?_⟩
        show s.reconnectDelay * 2 ^ (s.reconnectAttempts + 1 - 1) =
          1000 * 2 ^ (s.reconnectAttempts + 1 - 1)
        rw [hd]
      · exact ⟨⟨hm, hd, ha⟩, by simp⟩

theorem wsRun_inv (tr : List WSEvent) : ∀ s : WSState, wsInv s →
    wsInv (wsRun s tr).1 ∧
    ∀ r ∈ (wsRun s tr).2,
      1 ≤ r.attempt ∧ r.attempt ≤ 5 ∧ r.delay = 1000 * 2 ^ (r.attempt - 1) := by
  induction tr with
  | nil =>
      intro s h
      exact ⟨h, by simp [wsRun]⟩
  | cons ev tr ih =>
      intro s h
      have h1 := wsStep_inv s ev h
      have h2 := ih (wsStep s ev).1 h1.1
      refine ⟨by simpa [wsRun] using h2.1, ?_⟩
      intro r hr
      simp only [wsRun, List.mem_append] at hr
      rcases hr with hr | hr
      · exact h1.2 r hr
      · exact h2.2 r hr

/-- Claim C8, counterexample: the total number of reconnect attempts in a run
CAN exceed `maxReconnectAttempts = 5`, because `socket.onopen` resets
`reconnectAttempts` to 0.  On the concrete trace `wsCounterTrace` the manager
schedules 6 reconnects. -/
theorem reconnect_total_six_on_counter_trace :
    (wsRun wsInit wsCounterTrace).2.length = 6 ∧
    wsInit.maxReconnectAttempts < (wsRun wsInit wsCounterTrace).2.length := by
  decide

/-- Claim C8, amended: after a socket close with code 1000 no reconnect is
scheduled for that close; the number of reconnect attempts since the last
successful open (the `reconnectAttempts` counter) never exceeds
`maxReconnectAttempts = 5`, though the cumulative total over a run with
intervening successful opens may exceed 5; and every scheduled reconnect is
the n-th attempt since the last successful open for some 1 ≤ n ≤ 5 and has
delay exactly `reconnectDelay * 2 ^ (n - 1) = 1000 * 2 ^ (n - 1)` ms. -/
theorem reconnect_policy_amended :
    (∀ s : WSState, (wsStep s (.onClose 1000)).2 = none)
    ∧ (∀ tr : List WSEvent,
        (wsRun wsInit tr).1.reconnectAttempts ≤ wsInit.maxReconnectAttempts)
    ∧ (∀ tr : List WSEvent, ∀ r ∈ (wsRun wsInit tr).2,
        1 ≤ r.attempt ∧ r.attempt ≤ wsInit.maxReconnectAttempts ∧
        r.delay = wsInit.reconnectDelay * 2 ^ (r.attempt - 1)) := by
  have hinit : wsInv wsInit := by simp [wsInv, wsInit]
  refine ⟨?_, ?_, ?_⟩
  · intro s
    simp [wsStep]
  · intro tr
    have h := (wsRun_inv tr wsInit hinit).1
    show (wsRun wsInit tr).1.reconnectAttempts ≤ 5
    exact h.2.2
  · intro tr r hr
    have h := (wsRun_inv tr wsInit hinit).2 r hr
    exact ⟨h.1, h.2.1, h.2.2⟩

/-- Witness for `reconnect_policy_amended` at concrete inputs: a clean close
from the initial state schedules nothing, a one-event abnormal-close trace
keeps the counter within bound, and its single scheduled reconnect is
attempt 1 with delay 1000 ms. -/
theorem reconnect_policy_amended_witness :
    (wsStep wsInit (.onClose 1000)).2 = none ∧
    (wsRun wsInit [.onClose 1006]).1.reconnectAttempts ≤
      wsInit.maxReconnectAttempts ∧
    (1 ≤ (WSRec.mk 1 1000).attempt ∧
     (WSRec.mk 1 1000).attempt ≤ wsInit.maxReconnectAttempts ∧
     (WSRec.mk 1 1000).delay =
       wsInit.reconnectDelay * 2 ^ ((WSRec.mk 1 1000).attempt - 1)) :=
  ⟨reconnect_policy_amended.1 wsInit,
   reconnect_policy_amended.2.1 [.onClose 1006],
   reconnect_policy_amended.2.2 [.onClose 1006] (WSRec.mk 1 1000) (by decide)⟩

/-- Claim C9: `sendMessage(message)` transmits the serialized message and
returns `true` exactly when `isConnected` is true and the socket is non-null;
otherwise it transmits nothing and returns `false`; and after `disconnect()`
(which nulls the socket and clears `isConnected`) every subsequent
`sendMessage` call returns `false`. -/
theorem sendMessage_spec {μ : Type} (serialize : μ → String) (s : WSState)
    (m : μ) :
    ((sendMessage serialize s m).1 = true ↔
      (s.isConnected = true ∧ s.socketPresent = true))
    ∧ ((sendMessage serialize s m).1 = true →
        (sendMessage serialize s m).2 = some (serialize m))
    ∧ ((sendMessage serialize s m).1 = false →
        (sendMessage serialize s m).2 = none)
    ∧ (sendMessage serialize (wsDisconnect s) m).1 = false := by
  cases hc : s.isConnected <;> cases hp : s.socketPresent <;>
    simp [sendMessage, wsDisconnect, hc, hp]

/-- Witness for `sendMessage_spec`: on a connected state the message frame is
transmitted, and after `disconnect()` the send reports failure. -/
theorem sendMessage_spec_witness :
    (sendMessage (fun n : Nat => toString n)
      { wsInit with socketPresent := true, isConnected := true } 3).2 =
        some (toString 3) ∧
    (sendMessage (fun n : Nat => toString n)
      (wsDisconnect { wsInit with socketPresent := true, isConnected := true })
      3).1 = false :=
  ⟨(sendMessage_spec (fun n : Nat => toString n)
      { wsInit with socketPresent := true, isConnected := true } 3).2.1
      (by decide),
   (sendMessage_spec (fun n : Nat => toString n)
      { wsInit with socketPresent := true, isConnected := true } 3).2.2.2⟩

/-- Claim C3: for every input whose required processing (OCR) names the
advanced variant, if the advanced variant is unavailable then
`ParserFactory.parse` returns the successful result of the basic variant
with `metadata.parser_used` set to the basic variant's identifier, and does
not fail with `AllParsersFailed`. -/
theorem factory_fallback_to_basic
    (parseFn : ParserVariant → ParseInput → Except ParseError ParsedDocument)
    (input : ParseInput) (d : ParsedDocument)
    (hocr : input.options.enable_ocr = true)
    (hsupp : basicSupports input.mime = true)
    (hok : parseFn .basic input = .ok d) :
    factoryParse { advancedAvailable := false } parseFn input =
      .ok (setParserUsed d (parserId .basic)) ∧
    ∀ e : ParseError,
      factoryParse { advancedAvailable := false } parseFn input = .error e →
      e.kind ≠ .AllParsersFailed := by
  have hres : factoryParse { advancedAvailable := false } parseFn input =
      .ok (setParserUsed d (parserId .basic)) := by
    cases hadv : advancedSupports input.mime <;>
      simp [factoryParse, candidatesFor, candidateOrder, variantSupports,
        hocr, hadv, hsupp, factoryAttempt, variantAvailable, hok,
        List.filter]
  refine ⟨hres, ?_⟩
  intro e he
  rw [hres] at he
  exact absurd he (by simp)

theorem factory_fallback_to_basic_witness :
    factoryParse { advancedAvailable := false } (fun _ _ => .ok wDoc) wInput =
      .ok (setParserUsed wDoc (parserId .basic)) :=
  (factory_fallback_to_basic (fun _ _ => .ok wDoc) wInput wDoc
    rfl (by decide) rfl).1

/-- Claim C7: for every `ParsedDocument` returned by any parser variant, the
`content` field is a string that defaults to the empty string on total text
extraction failure short of a hard error, and the `tables`, `images` and
`structure` fields are always-present lists defaulting to empty rather than
absent; the basic variant never produces tables or images.  (That `content`
can never be null and the sequence fields can never be absent is enforced by
the types `String` and `List` of the fields themselves.) -/
theorem parsedDocument_field_defaults
    (backend : ParserVariant → ParseInput → Extraction)
    (v : ParserVariant) (input : ParseInput) (d : ParsedDocument)
    (h : variantParse backend v input = .ok d) :
    d.content = ((backend v input).text.getD "") ∧
    ((backend v input).sections = none → d.structure' = []) ∧
    ((backend v input).tables = none → d.tables = []) ∧
    ((backend v input).images = none → d.images = []) ∧
    (v = .basic → d.tables = [] ∧ d.images = []) := by
  unfold variantParse at h
  split at h
  · simp at h
  · split at h
    · cases v with
      | basic =>
          simp only [Except.ok.injEq] at h
          subst h
          refine ⟨by simp [assembleDoc], ?_, ?_, ?_, ?_⟩
          · intro hn
            simp [assembleDoc, hn]
          · intro _
            simp [assembleDoc]
          · intro _
            simp [assembleDoc]
          · intro _
            simp [assembleDoc]
      | advanced =>
          simp only [Except.ok.injEq] at h
          subst h
          refine ⟨by simp [assembleDoc], ?_, ?_, ?_, ?_⟩
          · intro hn
            simp [assembleDoc, hn]
          · intro hn
            simp [assembleDoc, hn]
          · intro hn
            simp [assembleDoc, hn]
          · intro hv
            simp at hv
    · simp at h

/-- Witness for `parsedDocument_field_defaults`: the basic variant on a
plain-text input whose backend extracts nothing yields empty-string content
and empty structure/tables/images. -/
theorem parsedDocument_field_defaults_witness :
    wDoc7.content = ((wBackend .basic wInput).text.getD "") ∧
    ((wBackend .basic wInput).sections = none → wDoc7.structure' = []) ∧
    ((wBackend .basic wInput).tables = none → wDoc7.tables = []) ∧
    ((wBackend .basic wInput).images = none → wDoc7.images = []) ∧
    (ParserVariant.basic = .basic → wDoc7.tables = [] ∧ wDoc7.images = []) :=
  parsedDocument_field_defaults wBackend .basic wInput wDoc7 rfl

/-- Claim C4: a file whose size is exactly `max_file_size_bytes` proceeds
past validation (the cache is consulted) and can succeed (it does succeed
whenever the cache misses and the factory parse succeeds); a file one byte
over (or more) fails with a non-retryable `ParseError` of kind `TooLarge`
before the cache is consulted and before any parser is invoked. -/
theorem processFile_size_boundary (env : FactoryEnv)
    (parseFn : ParserVariant → ParseInput → Except ParseError ParsedDocument)
    (topicsFn : String → Except String (List String))
    (summaryFn : String → Except String String)
    (cache : String → Option ParsedDocument) (fp : String)
    (input : ParseInput) :
    (input.size = input.options.max_file_size_bytes →
      (processFile env parseFn topicsFn summaryFn cache fp input).2.cacheConsulted
          = true ∧
      (∀ d : ParsedDocument, cache fp = none →
        factoryParse env parseFn input = .ok d →
        (processFile env parseFn topicsFn summaryFn cache fp input).1 =
          .ok (assembleResult topicsFn summaryFn input.options d)))
    ∧ (input.options.max_file_size_bytes < input.size →
      (processFile env parseFn topicsFn summaryFn cache fp input).1 =
        .error tooLargeError ∧
      (processFile env parseFn topicsFn summaryFn cache fp input).2.cacheConsulted
          = false ∧
      (processFile env parseFn topicsFn summaryFn cache fp input).2.parserInvoked
          = false) := by
  constructor
  · intro hsz
    have hlt : ¬ input.options.max_file_size_bytes < input.size := by omega
    constructor
    · unfold processFile
      rw [if_neg hlt]
      cases hc : cache fp with
      | none =>
          cases hf : factoryParse env parseFn input <;> simp
      | some d => simp
    · intro d hc hf
      unfold processFile
      rw [if_neg hlt, hc, hf]
  · intro hsz
    unfold processFile
    rw [if_pos hsz]
    exact ⟨rfl, rfl, rfl⟩

/-- Claim C6: whenever the primary extraction succeeds (cache hit or
successful factory parse), `processFile` returns a successful
`EnhancedResult` carrying that `ParsedDocument` — with no assumption at all
on the delegated topic/summary calls — and whenever the delegated
topic-extraction or summarization call fails, the corresponding field is
empty/`none`. -/
theorem postprocessing_failure_tolerated (env : FactoryEnv)
    (parseFn : ParserVariant → ParseInput → Except ParseError ParsedDocument)
    (topicsFn : String → Except String (List String))
    (summaryFn : String → Except String String)
    (cache : String → Option ParsedDocument) (fp : String)
    (input : ParseInput) (d : ParsedDocument)
    (hsz : input.size ≤ input.options.max_file_size_bytes)
    (hsrc : cache fp = some d ∨
      (cache fp = none ∧ factoryParse env parseFn input = .ok d)) :
    (processFile env parseFn topicsFn summaryFn cache fp input).1 =
      .ok (assembleResult topicsFn summaryFn input.options d) ∧
    (assembleResult topicsFn summaryFn input.options d).document = d ∧
    (∀ e, topicsFn d.content = .error e →
      (assembleResult topicsFn summaryFn input.options d).key_topics = []) ∧
    (∀ e, summaryFn d.content = .error e →
      (assembleResult topicsFn summaryFn input.options d).summary = none) := by
  have hlt : ¬ input.options.max_file_size_bytes < input.size := by omega
  refine ⟨?_, rfl, ?_, ?_⟩
  · unfold processFile
    rw [if_neg hlt]
    rcases hsrc with hc | ⟨hc, hf⟩
    · rw [hc]
    · rw [hc, hf]
  · intro e he
    simp [assembleResult, he, Except.toOption]
  · intro e he
    simp [assembleResult, he, Except.toOption]

/-- Witness for `processFile_size_boundary`: a 100-byte file against a
100-byte bound proceeds and succeeds, a 101-byte file fails fast with
`TooLarge` and consults neither cache nor parser. -/
theorem processFile_size_boundary_witness :
    (processFile wEnv wParseFn wTopicsFail wSummaryFail wCacheNone "fp"
      wBoundaryInput).2.cacheConsulted = true ∧
    (processFile wEnv wParseFn wTopicsFail wSummaryFail wCacheNone "fp"
      wBoundaryInput).1 =
      .ok (assembleResult wTopicsFail wSummaryFail wBoundaryInput.options
        wTagged) ∧
    (processFile wEnv wParseFn wTopicsFail wSummaryFail wCacheNone "fp"
      wOverInput).1 = .error tooLargeError ∧
    (processFile wEnv wParseFn wTopicsFail wSummaryFail wCacheNone "fp"
      wOverInput).2.cacheConsulted = false ∧
    (processFile wEnv wParseFn wTopicsFail wSummaryFail wCacheNone "fp"
      wOverInput).2.parserInvoked = false :=
  ⟨((processFile_size_boundary wEnv wParseFn wTopicsFail wSummaryFail
      wCacheNone "fp" wBoundaryInput).1 rfl).1,
   ((processFile_size_boundary wEnv wParseFn wTopicsFail wSummaryFail
      wCacheNone "fp" wBoundaryInput).1 rfl).2 wTagged rfl rfl,
   ((processFile_size_boundary wEnv wParseFn wTopicsFail wSummaryFail
      wCacheNone "fp" wOverInput).2 (by decide)).1,
   ((processFile_size_boundary wEnv wParseFn wTopicsFail wSummaryFail
      wCacheNone "fp" wOverInput).2 (by decide)).2.1,
   ((processFile_size_boundary wEnv wParseFn wTopicsFail wSummaryFail
      wCacheNone "fp" wOverInput).2 (by decide)).2.2⟩

/-- Witness for `postprocessing_failure_tolerated`: with both delegated
collaborators failing, the request still succeeds with the extracted
document, empty topics and no summary. -/
theorem postprocessing_failure_tolerated_witness :
    (processFile wEnv wParseFn wTopicsFail wSummaryFail wCacheNone "fp"
      wInput).1 =
      .ok (assembleResult wTopicsFail wSummaryFail wInput.options wTagged) ∧
    (assembleResult wTopicsFail wSummaryFail wInput.options wTagged).document
      = wTagged ∧
    (assembleResult wTopicsFail wSummaryFail wInput.options wTagged).key_topics
      = [] ∧
    (assembleResult wTopicsFail wSummaryFail wInput.options wTagged).summary
      = none :=
  have h := postprocessing_failure_tolerated wEnv wParseFn wTopicsFail
    wSummaryFail wCacheNone "fp" wInput wTagged (by decide)
    (Or.inr ⟨rfl, rfl⟩)
  ⟨h.1, h.2.1, h.2.2.1 "topics backend down" rfl,
   h.2.2.2 "summary backend down" rfl⟩

theorem batchTableFrom_not_mem
    (processOne : ParseInput → Except ParseError ParsedDocument)
    (jobs : List ParseInput) :
    ∀ (order : List Nat) (t : Nat → Option BatchResult) (i : Nat),
    i ∉ order → batchTableFrom processOne jobs order t i = t i := by
  intro order
  induction order with
  | nil =>
      intro t i _
      rfl
  | cons a rest ih =>
      intro t i hi
      have hia : i ≠ a := fun h => hi (h ▸ List.mem_cons_self a rest)
      have hirest : i ∉ rest := fun h => hi (List.mem_cons_of_mem a h)
      show batchTableFrom processOne jobs rest _ i = t i
      rw [ih _ i hirest]
      cases hj : jobs[a]? with
      | none => simp
      | some j => simp [hia]

theorem batchTableFrom_mem
    (processOne : ParseInput → Except ParseError ParsedDocument)
    (jobs : List ParseInput) :
    ∀ (order : List Nat) (t : Nat → Option BatchResult) (i : Nat)
      (j : ParseInput), jobs[i]? = some j → i ∈ order →
    batchTableFrom processOne jobs order t i =
      some (batchOutcome processOne j) := by
  intro order
  induction order with
  | nil =>
      intro t i j _ hi
      exact absurd hi (List.not_mem_nil i)
  | cons a rest ih =>
      intro t i j hj hi
      by_cases hirest : i ∈ rest
      · exact ih _ i j hj hirest
      · have hia : i = a := by
          rcases List.mem_cons.mp hi with h | h
          · exact h
          · exact absurd h hirest
        subst hia
        show batchTableFrom processOne jobs rest _ i = _
        rw [batchTableFrom_not_mem processOne jobs rest _ i hirest]
        simp [hj]

/-- Claim C2: `processBatch` returns exactly one `BatchResult` slot per job,
in submission order, regardless of the completion order (any permutation of
the job indices), and each slot's outcome is `batchOutcome` of that job
alone — so one job's failure never aborts, blocks or alters a sibling's
result. -/
theorem processBatch_ordered_isolated
    (processOne : ParseInput → Except ParseError ParsedDocument)
    (jobs : List ParseInput) (maxConcurrent : Nat) (order : List Nat)
    (hperm : order.Perm (List.range jobs.length)) :
    processBatch processOne jobs maxConcurrent order =
      jobs.map (fun j => some (batchOutcome processOne j)) := by
  unfold processBatch
  apply List.ext_getElem
  · simp
  · intro i h1 h2
    simp only [List.getElem_map, List.getElem_range]
    have hi : i < jobs.length := by simpa using h2
    have hj : jobs[i]? = some jobs[i] := List.getElem?_eq_getElem hi
    have hmem : i ∈ order := hperm.mem_iff.mpr (List.mem_range.mpr hi)
    rw [batchTableFrom_mem processOne jobs order _ i jobs[i] hj hmem]

/-- Witness for `processBatch_ordered_isolated`: 5 jobs with the corrupt one
at index 2, completing in the scrambled order [2, 0, 4, 1, 3], yield 5
results in submission order with index 2 the only failure. -/
theorem processBatch_ordered_isolated_witness :
    processBatch wProcessOne wJobs 2 [2, 0, 4, 1, 3] =
      wJobs.map (fun j => some (batchOutcome wProcessOne j)) ∧
    wJobs.map (fun j => some (batchOutcome wProcessOne j)) =
      [some (.success wDoc), some (.success wDoc),
       some (.failure corruptError),
       some (.success wDoc), some (.success wDoc)] :=
  ⟨processBatch_ordered_isolated wProcessOne wJobs 2 [2, 0, 4, 1, 3]
      (by decide),
   by decide⟩

theorem lruVictim_cons {κ α : Type} (a : CacheEntry κ α)
    (t : List (CacheEntry κ α)) :
    lruVictim (a :: t) =
      match lruVictim t with
      | none => some a
      | some e' =>
          if a.last_accessed_at ≤ e'.last_accessed_at then some a
          else some e' :=
  rfl

theorem lruVictim_mem {κ α : Type} :
    ∀ (l : List (CacheEntry κ α)) (e : CacheEntry κ α),
    lruVictim l = some e → e ∈ l := by
  intro l
  induction l with
  | nil =>
      intro e h
      cases h
  | cons a t ih =>
      intro e h
      rw [lruVictim_cons] at h
      cases hv : lruVictim t with
      | none =>
          rw [hv] at h
          have h' : a = e := Option.some.inj h
          exact h' ▸ List.mem_cons_self a t
      | some e' =>
          rw [hv] at h
          have h' : (if a.last_accessed_at ≤ e'.last_accessed_at then some a
            else some e') = some e := h
          by_cases hle : a.last_accessed_at ≤ e'.last_accessed_at
          · rw [if_pos hle] at h'
            have h'' : a = e := Option.some.inj h'
            exact h'' ▸ List.mem_cons_self a t
          · rw [if_neg hle] at h'
            have h'' : e' = e := Option.some.inj h'
            exact List.mem_cons_of_mem a (h'' ▸ ih e' hv)

theorem lruVictim_unique_min {κ α : Type} :
    ∀ (l : List (CacheEntry κ α)) (e : CacheEntry κ α), e ∈ l →
    (∀ e' ∈ l, e' ≠ e → e.last_accessed_at < e'.last_accessed_at) →
    lruVictim l = some e := by
  intro l
  induction l with
  | nil =>
      intro e he _
      exact absurd he (List.not_mem_nil e)
  | cons a t ih =>
      intro e he hmin
      rw [lruVictim_cons]
      rcases List.mem_cons.mp he with he1 | het
  
      · subst he1
        cases hv : lruVictim t with
        | none => rfl
        | some e' =>
            have he'mem : e' ∈ t := lruVictim_mem t e' hv
            have hle : e.last_accessed_at ≤ e'.last_accessed_at := by
              by_cases h' : e' = e
              · subst h'
                exact le_refl _
              · exact le_of_lt (hmin e' (List.mem_cons_of_mem e he'mem) h')
            show (if e.last_accessed_at ≤ e'.last_accessed_at then some e
              else some e') = some e
            rw [if_pos hle]
      · by_cases ha : a = e
        · subst ha
          cases hv : lruVictim t with
          | none => rfl
          | some e' =>
              have he'mem : e' ∈ t := lruVictim_mem t e' hv
              have hle : a.last_accessed_at ≤ e'.last_accessed_at := by
                by_cases h' : e' = a
                · subst h'
                  exact le_refl _
                · exact le_of_lt (hmin e' (List.mem_cons_of_mem a he'mem) h')
              show (if a.last_accessed_at ≤ e'.last_accessed_at then some a
                else some e') = some a
              rw [if_pos hle]
        · have hres : lruVictim t = some e :=
            ih e het (fun e' he' hne =>
              hmin e' (List.mem_cons_of_mem a he') hne)
          rw [hres]
          have hlt : e.last_accessed_at < a.last_accessed_at :=
            hmin a (List.mem_cons_self a t) ha
          show (if a.last_accessed_at ≤ e.last_accessed_at then some a
            else some e) = some e
          rw [if_neg (not_le.mpr hlt)]

/-- Claim C5: inserting one additional distinct fingerprint into a cache
holding exactly `maxEntries` entries evicts exactly the
least-recently-accessed entry and no other — every other entry, such as one
accessed just before the bound was exceeded, survives — and any entry whose
age since creation exceeds `ttl` is invalidated on access (the lookup
misses and the entry is removed). -/
theorem cache_lru_ttl_eviction {κ α : Type} [DecidableEq κ] [DecidableEq α]
    (c : LruCache κ α) (now : Nat) (fp : κ) (v : α) (e : CacheEntry κ α)
    (hfull : c.entries.length = c.maxEntries)
    (hmem : e ∈ c.entries)
    (hmin : ∀ e' ∈ c.entries, e' ≠ e →
      e.last_accessed_at < e'.last_accessed_at) :
    (cacheInsert c now fp v).entries =
      c.entries.erase e ++ [cacheNewEntry now fp v] ∧
    (∀ e' ∈ c.entries, e' ≠ e → e' ∈ (cacheInsert c now fp v).entries) ∧
    (∀ (c' : LruCache κ α) (t : Nat) (x : CacheEntry κ α),
      c'.entries.find? (fun y => y.fingerprint == x.fingerprint) = some x →
      c'.ttl < t - x.created_at →
      (cacheLookup c' t x.fingerprint).1 = none ∧
      ∀ y ∈ (cacheLookup c' t x.fingerprint).2.entries,
        y.fingerprint ≠ x.fingerprint) := by
  have hvict : lruVictim c.entries = some e :=
    lruVictim_unique_min c.entries e hmem hmin
  have hge : c.maxEntries ≤ c.entries.length := le_of_eq hfull.symm
  have hins : (cacheInsert c now fp v).entries =
      c.entries.erase e ++ [cacheNewEntry now fp v] := by
    unfold cacheInsert
    rw [if_pos hge, hvict]
  refine ⟨hins, ?_, ?_⟩
  · intro e' he' hne
    rw [hins]
    exact List.mem_append.mpr (Or.inl ((List.mem_erase_of_ne hne).mpr he'))
  · intro c' t x hfind httl
    have hred : cacheLookup c' t x.fingerprint =
        (none, { c' with entries :=
          c'.entries.filter (fun z => z.fingerprint != x.fingerprint) }) := by
      unfold cacheLookup
      rw [hfind]
      show (if c'.ttl < t - x.created_at then _ else _) = _
      rw [if_pos httl]
    rw [hred]
    refine ⟨rfl, ?_⟩
    intro y hy
    have hy' : y ∈ c'.entries.filter
        (fun z => z.fingerprint != x.fingerprint) := hy
    have hb := (List.mem_filter.mp hy').2
    simpa using hb

/-- Witness for `cache_lru_ttl_eviction`: inserting fingerprint 3 into the
full `wCache` evicts exactly the untouched `wOldEntry` while the
recently-accessed `wFreshEntry` survives, and accessing the expired entry of
`wTtlCache` at time 100 misses and removes it. -/
theorem cache_lru_ttl_eviction_witness :
    (cacheInsert wCache 6 3 30).entries =
      wCache.entries.erase wOldEntry ++ [cacheNewEntry 6 3 30] ∧
    wFreshEntry ∈ (cacheInsert wCache 6 3 30).entries ∧
    (cacheLookup wTtlCache 100 wExpired.fingerprint).1 = none ∧
    (cacheLookup wTtlCache 100 wExpired.fingerprint).2.entries = [] :=
  have h := cache_lru_ttl_eviction wCache 6 3 30 wOldEntry (by decide)
    (by decide) (by decide)
  ⟨h.1, h.2.1 wFreshEntry (by decide) (by decide),
   (h.2.2 wTtlCache 100 wExpired (by decide) (by decide)).1, by decide⟩

theorem coalesceRun_append {κ α ε : Type} [DecidableEq κ]
    (t1 t2 : List (CoalesceEvent κ α ε)) :
    ∀ s : CoalesceState κ α ε,
    coalesceRun s (t1 ++ t2) = coalesceRun (coalesceRun s t1) t2 := by
  induction t1 with
  | nil =>
      intro s
      rfl
  | cons ev t ih =>
      intro s
      exact ih (coalesceStep s ev)

theorem coalesce_requests_join {κ α ε : Type} [DecidableEq κ] (f : κ) :
    ∀ (cs : List Nat) (s : CoalesceState κ α ε) (ws : List Nat),
    s.store f = none → s.inflight f = some ws →
    (coalesceRun s (cs.map (fun c => CoalesceEvent.request c f))).store
        = s.store ∧
    (coalesceRun s (cs.map (fun c => CoalesceEvent.request c f))).inflight f
        = some (ws ++ cs) ∧
    (coalesceRun s (cs.map (fun c => CoalesceEvent.request c f))).computeLog
        = s.computeLog ∧
    (coalesceRun s (cs.map (fun c => CoalesceEvent.request c f))).delivered
        = s.delivered := by
  intro cs
  induction cs with
  | nil =>
      intro s ws hst hin
      exact ⟨rfl, by simpa using hin, rfl, rfl⟩
  | cons c cs ih =>
      intro s ws hst hin
      have hstep : coalesceStep s (.request c f) =
          { s with inflight := fun k =>
              if k = f then some (ws ++ [c]) else s.inflight k } := by
        simp only [coalesceStep, hst, hin]
      obtain ⟨h1, h2, h3, h4⟩ := ih (coalesceStep s (.request c f)) (ws ++ [c])
        (by rw [hstep]; exact hst)
        (by rw [hstep]; simp)
      refine ⟨?_, ?_, ?_, ?_⟩
      · show (coalesceRun (coalesceStep s (.request c f))
            (cs.map (fun c => CoalesceEvent.request c f))).store = s.store
        rw [h1, hstep]
      · show (coalesceRun (coalesceStep s (.request c f))
            (cs.map (fun c => CoalesceEvent.request c f))).inflight f
            = some (ws ++ c :: cs)
        rw [h2]
        simp
      · show (coalesceRun (coalesceStep s (.request c f))
            (cs.map (fun c => CoalesceEvent.request c f))).computeLog
            = s.computeLog
        rw [h3, hstep]
      · show (coalesceRun (coalesceStep s (.request c f))
            (cs.map (fun c => CoalesceEvent.request c f))).delivered
            = s.delivered
        rw [h4, hstep]

theorem coalesce_complete_fields {κ α ε : Type} [DecidableEq κ]
    (s : CoalesceState κ α ε) (f : κ) (r : Except ε α) (ws : List Nat)
    (h : s.inflight f = some ws) :
    (coalesceStep s (.complete f r)).computeLog = s.computeLog ∧
    (coalesceStep s (.complete f r)).delivered =
      s.delivered ++ ws.map (fun c => (c, r)) := by
  simp only [coalesceStep, h]
  exact ⟨trivial, trivial⟩

/-- Claim C1: for every fingerprint `f` and every nonempty collection of
callers whose `getOrCompute(f, computeFn)` requests all arrive while `f` is
neither stored nor in flight and before the computation finishes, exactly
one underlying computation of `f` is started, and every caller receives the
same result `r` — the same document on success, the same failure on
failure. -/
theorem getOrCompute_coalesces {κ α ε : Type} [DecidableEq κ]
    (s : CoalesceState κ α ε) (f : κ) (c : Nat) (cs : List Nat)
    (r : Except ε α)
    (hstore : s.store f = none) (hin : s.inflight f = none) :
    (coalesceRun s ((c :: cs).map (fun c' => CoalesceEvent.request c' f) ++
        [CoalesceEvent.complete f r])).computeLog = s.computeLog ++ [f] ∧
    (coalesceRun s ((c :: cs).map (fun c' => CoalesceEvent.request c' f) ++
        [CoalesceEvent.complete f r])).delivered =
      s.delivered ++ (c :: cs).map (fun c' => (c', r)) := by
  rw [coalesceRun_append]
  simp only [List.map_cons, coalesceRun]
  have hstep1 : coalesceStep s (.request c f) =
      { s with
        inflight := fun k => if k = f then some [c] else s.inflight k,
        computeLog := s.computeLog ++ [f] } := by
    simp only [coalesceStep, hstore, hin]
  obtain ⟨h1, h2, h3, h4⟩ :=
    coalesce_requests_join f cs (coalesceStep s (.request c f)) [c]
      (by rw [hstep1]; exact hstore)
      (by rw [hstep1]; simp)
  obtain ⟨hclog, hcdel⟩ :=
    coalesce_complete_fields
      (coalesceRun (coalesceStep s (.request c f))
        (cs.map (fun c' => CoalesceEvent.request c' f)))
      f r ([c] ++ cs) h2
  constructor
  · rw [hclog, h3, hstep1]
  · rw [hcdel, h4, hstep1]
    rfl

/-- Witness for `getOrCompute_coalesces`: three concurrent callers of
fingerprint 0 on the empty cache trigger exactly one computation, and all
three receive the same successful result 42. -/
theorem getOrCompute_coalesces_witness :
    (coalesceRun wCoalesceInit
        ((1 :: [2, 3]).map (fun c' => CoalesceEvent.request c' 0) ++
          [CoalesceEvent.complete 0 (.ok 42)])).computeLog =
      wCoalesceInit.computeLog ++ [0] ∧
    (coalesceRun wCoalesceInit
        ((1 :: [2, 3]).map (fun c' => CoalesceEvent.request c' 0) ++
          [CoalesceEvent.complete 0 (.ok 42)])).delivered =
      wCoalesceInit.delivered ++ (1 :: [2, 3]).map (fun c' => (c', .ok 42)) :=
  getOrCompute_coalesces wCoalesceInit 0 1 [2, 3] (.ok 42) rfl rfl
